import Mathlib

/-!
Shallow embedding of the book-template build pipeline.

Each definition below is translated from one function of the repository:

* `scripts/author-utils.js` — `getAuthorString`, `getAuthorArray`
* `scripts/build-web.js` — chapter ordering, `processChapter` slug/filename
  derivation, and the prev/next linking of `generateChapterPage`
* `scripts/build-kindle.js` — anchor (slug) derivation for TOC entries
* `scripts/build-pdf.js` — the chapter-combining loop of `buildPDF`
* the runtime navigator script — the TOC counter updates of
  `initTableOfContents` and the grouping logic of `groupChaptersByPrefix`
* `scripts/validate.js` — `validateMetadata`

JavaScript machine details that matter are modelled explicitly: truthiness
of optional string fields (`undefined`/`""` are falsy), `String.replace`
with a string pattern replacing only the first occurrence, `Array.sort`
being a lexicographic sort of the filenames, and `Math.floor` division on
possibly negative numbers (`Int.fdiv`).
-/

/-- One entry of the `authors:` array of `book.yaml`.  Optional fields are
`Option String`; `none` models an absent (JS `undefined`) field. -/
structure AuthorRec where
  name : String
  bio : Option String := none
  email : Option String := none
  website : Option String := none
  twitter : Option String := none
  linkedin : Option String := none
  github : Option String := none
deriving DecidableEq, Repr

/-- The parsed `book.yaml` metadata record, restricted to the fields the
verified functions read.  `none` models an absent field. -/
structure Metadata where
  title : Option String := none
  subtitle : Option String := none
  description : Option String := none
  date : Option String := none
  language : Option String := none
  version : Option String := none
  author : Option String := none
  authors : Option (List AuthorRec) := none
  kindleCoverImage : Option String := none
deriving Repr

/-- JS truthiness of an optional string field: `undefined` and `""` are
falsy, every other string is truthy. -/
def strTruthy : Option String → Bool
  | none => false
  | some s => !s.data.isEmpty

/-- Split a character list at every separator character, dropping the
separators; `n` separators give `n + 1` (possibly empty) pieces, exactly as
`String.prototype.split`. -/
def splitChars (p : Char → Bool) : List Char → List (List Char)
  | [] => [[]]
  | c :: cs =>
    match splitChars p cs with
    | [] => [[]]
    | w :: ws => if p c then [] :: w :: ws else (c :: w) :: ws

/-- The ASCII whitespace recognized by the trimming model (the characters
`String.prototype.trim` removes that can occur in author fields). -/
def isSpaceChar (c : Char) : Bool :=
  c = ' ' ∨ c = '\t' ∨ c = '\n' ∨ c = '\r'

/-- Model of `String.prototype.trim`: strip whitespace from both ends. -/
def trimChars (cs : List Char) : List Char :=
  ((cs.dropWhile isSpaceChar).reverse.dropWhile isSpaceChar).reverse

/-- The guard `metadata.authors && Array.isArray(metadata.authors) &&
metadata.authors.length > 0` used by both author-utils functions. -/
def authorsPresent (m : Metadata) : Bool :=
  match m.authors with
  | some l => 0 < l.length
  | none => false

/-- Function `getAuthorString` from `scripts/author-utils.js`: structured `authors`
array first (1 name; 2 names joined by `" & "`; 3+ names comma-joined with
the last joined by `" & "`), otherwise the legacy `author` field or `""`
(`metadata.author || ''`). -/
def getAuthorString (m : Metadata) : String :=
  if authorsPresent m then
    let names := (m.authors.getD []).map AuthorRec.name
    if names.length = 1 then
      names.headD ""
    else if names.length = 2 then
      names.headD "" ++ " & " ++ names.getD 1 ""
    else
      String.intercalate ", " names.dropLast ++ " & " ++ names.getLastD ""
  else
    m.author.getD ""

/-- The legacy-field fallback of `getAuthorArray`:
`author.split(/\s*[&,]\s*/).map(name => name.trim()).filter(name =>
name.length > 0)`.  Splitting on the separator characters and trimming each
piece afterwards absorbs the `\s*` around the separator in the regex, so the
split is modelled on the bare separator set. -/
def legacyAuthorSplit (s : String) : List String :=
  ((splitChars (fun c => c = '&' ∨ c = ',') s.data).map
      fun w => String.mk (trimChars w)).filter
    fun n => 0 < n.data.length

/-- Function `getAuthorArray` from `scripts/author-utils.js`: the structured names
when the `authors` array is present and non-empty, otherwise the legacy
`author` field split on `&`/`,`, trimmed and filtered of empties, and `[]`
when that field is falsy. -/
def getAuthorArray (m : Metadata) : List String :=
  if authorsPresent m then
    (m.authors.getD []).map AuthorRec.name
  else if strTruthy m.author then
    legacyAuthorSplit (m.author.getD "")
  else
    []

/-- An author record carrying only a name, as built from the legacy field. -/
def mkAuthor (n : String) : AuthorRec := { name := n }

example : getAuthorString { authors := some [mkAuthor "Ada"] } = "Ada" := by decide
example :
    getAuthorString { authors := some [mkAuthor "Ada", mkAuthor "Lin", mkAuthor "Grace"] } =
      "Ada, Lin & Grace" := by decide
example : getAuthorArray { author := some "Ada & Lin , Grace" } = ["Ada", "Lin", "Grace"] := by
  decide

/-! ## Chapter corpus ordering (`build-web.js`, `build-kindle.js`, `build-pdf.js`) -/

/-- Structural suffix test (the builds' `file.endsWith('.md')` filter). -/
def endsWithStr (s suf : String) : Bool :=
  List.isPrefixOf suf.data.reverse s.data.reverse

/-- Lexicographic character comparison, the order `Array.prototype.sort`
applies to the filenames when called without a comparator (code-unit
less-than on the two strings). -/
def strCodeLe : List Char → List Char → Bool
  | [], _ => true
  | _ :: _, [] => false
  | c :: cs, d :: ds => if c = d then strCodeLe cs ds else decide (c < d)

/-- Comparison `a <= b` on filenames. -/
def fileLe (a b : String) : Bool := strCodeLe a.data b.data

/-- The shared chapter-ordering step of every build target:
`files.filter(file => file.endsWith('.md')).sort()`, i.e. keep Markdown
files and sort them lexicographically. -/
def orderedChapters (files : List String) : List String :=
  List.insertionSort (fun a b => fileLe a b = true)
    (files.filter fun f => endsWithStr f ".md")

/-! ## Web-target chapters and prev/next linking (`build-web.js`) -/

/-- Model of `String.prototype.replace` with a plain-string pattern: replace only the
first occurrence of `pat` (the list never shrinks past a match). -/
def replaceFirstChars (pat repl : List Char) : List Char → List Char
  | [] => []
  | c :: rest =>
    if List.isPrefixOf pat (c :: rest) then repl ++ (c :: rest).drop pat.length
    else c :: replaceFirstChars pat repl rest

/-- String wrapper for `replaceFirstChars`. -/
def replaceFirst (s pat repl : String) : String :=
  String.mk (replaceFirstChars pat.data repl.data s.data)

/-- The identification fields of the chapter record built by
`processChapter` in `build-web.js` (`slug`/`filename`; the rendered content
plays no role in navigation linking). -/
structure Chapter where
  slug : String
  filename : String
deriving DecidableEq, Repr

/-- Function `processChapter`'s record derivation:
`filename.replace('.md', '.html')` and `filename.replace('.md', '')` —
note `replace` rewrites only the FIRST occurrence of `.md`. -/
def processChapter (file : String) : Chapter :=
  { slug := replaceFirst file ".md" "", filename := replaceFirst file ".md" ".html" }

/-- The ordered chapter records assembled by `buildWeb`. -/
def webChapters (files : List String) : List Chapter :=
  (orderedChapters files).map processChapter

/-- Function `generateChapterPage`'s previous-chapter reference:
`currentIndex > 0 ? allChapters[currentIndex - 1] : null` with
`currentIndex = allChapters.findIndex(c => c.slug === chapter.slug)`. -/
def prevOf (chapters : List Chapter) (c : Chapter) : Option Chapter :=
  let i := chapters.findIdx fun x => x.slug == c.slug
  if 0 < i then chapters[i - 1]? else none

/-- Function `generateChapterPage`'s next-chapter reference:
`currentIndex < allChapters.length - 1 ? allChapters[currentIndex + 1] :
null`. -/
def nextOf (chapters : List Chapter) (c : Chapter) : Option Chapter :=
  let i := chapters.findIdx fun x => x.slug == c.slug
  if i < chapters.length - 1 then chapters[i + 1]? else none

/-! ## Runtime TOC numbering (`initTableOfContents` in the navigator script) -/

/-- Source `for (let i = level + 1; i <= 6; i++) counters[h_i] = 0;` —
zero every counter at a level strictly deeper than `L` (the counter for
level `j` lives at list index `j - 1`, so indices `≥ L` are zeroed). -/
def zeroDeeper : List Nat → Nat → List Nat
  | [], _ => []
  | _ :: t, 0 => 0 :: zeroDeeper t 0
  | x :: t, l + 1 => x :: zeroDeeper t l

/-- Source `counters[h_level]++` — increment the entry at index `i`. -/
def bumpAt : List Nat → Nat → List Nat
  | [], _ => []
  | x :: t, 0 => (x + 1) :: t
  | x :: t, i + 1 => x :: bumpAt t i

/-- One heading's counter update in `initTableOfContents`: zero the deeper
levels, then increment level `L` (index `L - 1`). -/
def tocStep (c : List Nat) (L : Nat) : List Nat :=
  bumpAt (zeroDeeper c L) (L - 1)

/-- Source `let counters = ... h1: 0, ..., h6: 0 ...`. -/
def initialCounters : List Nat := List.replicate 6 0

/-- The per-heading `numberPath`s (first `L` counters after each update)
along a heading sequence, starting from counter state `c`. -/
def numberPathsFrom (c : List Nat) : List Nat → List (List Nat)
  | [] => []
  | L :: rest => (tocStep c L).take L :: numberPathsFrom (tocStep c L) rest

/-- The `numberPath` sequence of a document's heading levels. -/
def tocNumberPaths (levels : List Nat) : List (List Nat) :=
  numberPathsFrom initialCounters levels

/-! ## Anchor derivation (`build-kindle.js` TOC extraction) -/

/-- Membership in `[a-z0-9]`, the characters a slug keeps. -/
def isLowerAlnum (c : Char) : Bool :=
  ('a' ≤ c ∧ c ≤ 'z') ∨ ('0' ≤ c ∧ c ≤ '9')

/-- Source `.replace(/[^a-z0-9]+/g, '-')`: collapse every maximal run of
characters outside `[a-z0-9]` into a single hyphen.  The boolean carries
"currently inside such a run". -/
def collapseNonAlnum (cs : List Char) : List Char :=
  (cs.foldl
      (fun (acc : List Char × Bool) c =>
        if isLowerAlnum c then (c :: acc.1, false)
        else if acc.2 then acc
        else ('-' :: acc.1, true))
      ([], false)).1.reverse

/-- Source `.replace(/^-|-$/g, '')`: remove one leading and one trailing hyphen
(after the collapse step no hyphen run is longer than one). -/
def trimEdgeHyphens (cs : List Char) : List Char :=
  let l1 := match cs with
    | '-' :: t => t
    | l => l
  match l1.getLast? with
  | some '-' => l1.dropLast
  | _ => l1

/-- The anchor derivation of `buildKindle`:
`title.toLowerCase().replace(/[^a-z0-9]+/g, '-').replace(/^-|-$/g, '')`
(ASCII lowercasing). -/
def slugify (t : String) : String :=
  String.mk (trimEdgeHyphens (collapseNonAlnum (t.data.map Char.toLower)))

/-- The anchors `buildKindle` assigns to a chapter's headings: each heading
text is slugified independently, with no collision disambiguation. -/
def chapterAnchors (texts : List String) : List String := texts.map slugify

example : slugify "Hello, World!" = "hello-world" := by decide
example : slugify "  --x--  " = "x" := by decide

/-! ## PDF flat-manuscript assembly (`buildPDF` in `build-pdf.js`) -/

/-- The page-break marker `'\n\\newpage\n\n'` inserted between chapters. -/
def pageBreak : String := "\n\\newpage\n\n"

/-- Source `combinedContent.includes('# ')`. -/
def hashSpace (s : String) : Bool := decide (['#', ' '] <:+: s.data)

/-- One iteration of `buildPDF`'s chapter loop: a page break is appended
only when the accumulated content already contains `'# '`, then the
chapter's (image-path-rewritten) content plus `'\n\n'`. -/
def pdfAppend (acc c : String) : String :=
  (if hashSpace acc then acc ++ pageBreak else acc) ++ c ++ "\n\n"

/-- The combined flat manuscript: title page and TOC block (`front`),
then every chapter folded through `pdfAppend` in corpus order. -/
def pdfCombine (front : String) (chapters : List String) : String :=
  chapters.foldl pdfAppend front

/-- The front matter `'\n\\newpage\n\\tableofcontents\n\\newpage\n\n'`
inserted after the title page, before any chapter. -/
def tocBlock : String := "\n\\newpage\n\\tableofcontents\n\\newpage\n\n"

/-! ## Chapter grouping (`initChapterGrouping` / `groupChaptersByPrefix`) -/

/-- Model of `parseInt` on a digit sequence. -/
def natOfDigits (ds : List Char) : Nat :=
  ds.foldl (fun a c => a * 10 + (c.toNat - 48)) 0

/-- Function `extractChapterPrefix`: `/^(Part \d+)/i` keeps the matched text as the
group key; `/^Chapter (\d+)/i` maps the number to a `Chapters a-b` bucket of
five (`groupStart = Math.floor((num - 1) / 5) * 5 + 1`, floor division on
possibly negative values, hence `Int.fdiv`); anything else falls into the
catch-all key `Chapters`. -/
def extractChapterPrefix (title : String) : String :=
  let cs := title.data
  let partDigits := (cs.drop 5).takeWhile Char.isDigit
  if (cs.take 5).map Char.toLower = "part ".data ∧ partDigits ≠ [] then
    String.mk (cs.take (5 + partDigits.length))
  else
    let chapDigits := (cs.drop 8).takeWhile Char.isDigit
    if (cs.take 8).map Char.toLower = "chapter ".data ∧ chapDigits ≠ [] then
      let n : Int := Int.ofNat (natOfDigits chapDigits)
      let gStart := (n - 1).fdiv 5 * 5 + 1
      let gEnd := gStart + 5 - 1
      "Chapters " ++ toString gStart ++ "-" ++ toString gEnd
    else
      "Chapters"

/-- Source `groups.get(key).push(item)` against an insertion-ordered map
(JS `Map` iterates keys in first-insertion order). -/
def insertGroup (gs : List (String × List String)) (k v : String) :
    List (String × List String) :=
  match gs with
  | [] => [(k, [v])]
  | (k', vs) :: rest =>
    if k' = k then (k', vs ++ [v]) :: rest else (k', vs) :: insertGroup rest k v

/-- The first loop of `groupChaptersByPrefix`: bucket every title under its
extracted key, keeping both key order and in-bucket order. -/
def groupByKey (titles : List String) : List (String × List String) :=
  titles.foldl (fun gs t => insertGroup gs ( extractChapterPrefix t) t) []

/-- One rendered entry of the rebuilt chapter list: either a flat item or a
named group of items. -/
inductive RenderedEntry where
  | flat (title : String)
  | group (title : String) (items : List String)
deriving DecidableEq, Repr

/-- Whether a rendered entry is a group. -/
def isGroupEntry : RenderedEntry → Bool
  | .group _ _ => true
  | .flat _ => false

/-- Function `groupChaptersByPrefix`: the container is rebuilt only when more than
one bucket holds multiple items (`meaningfulGroups.length > 1`); in the
rebuild, multi-item buckets become groups and single-item buckets are
appended flat.  `none` models "container left unchanged". -/
def groupChaptersByPrefix (titles : List String) : Option (List RenderedEntry) :=
  let gs := groupByKey titles
  let meaningful := gs.filter fun g => 1 < g.2.length
  if 1 < meaningful.length then
    some (gs.map fun g =>
      if 1 < g.2.length then RenderedEntry.group g.1 g.2
      else RenderedEntry.flat (g.2.headD ""))
  else
    none

/-- Function `initChapterGrouping`: grouping is even attempted only for more than 20
chapter entries. -/
def initChapterGrouping (titles : List String) : Option (List RenderedEntry) :=
  if 20 < titles.length then groupChaptersByPrefix titles else none

/-! ## Metadata validation (`validateMetadata` in `scripts/validate.js`) -/

/-- Source `path.resolve('src', cover.replace('../', ''))`, with the
current-working-directory prefix of `path.resolve` abstracted away. -/
def coverPathOf (cover : String) : String :=
  "src/" ++ replaceFirst cover "../" ""

/-- Function `validateMetadata`: returns the `(errors, warnings)` the function pushes,
in push order.  `coverExists` models the `fs.pathExists` probe of the
configured cover image.  The `typeof author.name !== 'string'` shape check
has no counterpart in the typed model (`name` is always a string); the
falsy-name check is modelled as the empty string. -/
def validateMetadata (m : Metadata) (coverExists : Bool) :
    List String × List String :=
  let requiredErrs :=
    (if strTruthy m.title then [] else ["Missing required metadata field: title"]) ++
    (if strTruthy m.description then []
     else ["Missing required metadata field: description"]) ++
    (if strTruthy m.date then [] else ["Missing required metadata field: date"])
  let authorErr :=
    if !strTruthy m.author && !authorsPresent m then
      ["Missing author information: must have either \"author\" field or \"authors\" array"]
    else []
  let nameErrs :=
    match m.authors with
    | some l =>
      l.enum.filterMap fun p =>
        if p.2.name.data.isEmpty then
          some ("Author at index " ++ toString p.1 ++ " is missing \"name\" field")
        else none
    | none => []
  let coverErr :=
    if strTruthy m.kindleCoverImage && !coverExists then
      ["Cover image not found: " ++ coverPathOf (m.kindleCoverImage.getD "")]
    else []
  let warns :=
    (if strTruthy m.subtitle then []
     else ["Missing recommended metadata field: subtitle"]) ++
    (if strTruthy m.language then []
     else ["Missing recommended metadata field: language"]) ++
    (if strTruthy m.version then []
     else ["Missing recommended metadata field: version"]) ++
    (if strTruthy m.kindleCoverImage then []
     else ["No cover image specified in metadata"])
  (requiredErrs ++ authorErr ++ nameErrs ++ coverErr, warns)

/-- Function `validate`'s abort rule: `if (errors.length > 0) process.exit(1)`. -/
def validateAborts (errors : List String) : Bool := !errors.isEmpty

/-- The `metadata.subtitle || ''` fallback used by the Kindle and PDF title
pages for the missing optional subtitle. -/
def subtitleDisplay (m : Metadata) : String := m.subtitle.getD ""

/-- The 25 chapter titles `Chapter 1` .. `Chapter 25` of the grouping test. -/
def chapterTitles25 : List String :=
  (List.range 25).map fun i => "Chapter " ++ toString (i + 1)

/-- A three-chapter fixture with pairwise distinct slugs. -/
def sampleChapters : List Chapter :=
  [{ slug := "a", filename := "a.html" }, { slug := "b", filename := "b.html" },
   { slug := "c", filename := "c.html" }]

/-! ## Theorems -/

theorem zeroDeeper_length (c : List Nat) (L : Nat) :
    (zeroDeeper c L).length = c.length := by
  induction c generalizing L with
  | nil => rfl
  | cons x t ih =>
    cases L with
    | zero => simp [zeroDeeper, ih]
    | succ l => simp [zeroDeeper, ih]

theorem bumpAt_length (c : List Nat) (i : Nat) : (bumpAt c i).length = c.length := by
  induction c generalizing i with
  | nil => rfl
  | cons x t ih =>
    cases i with
    | zero => rfl
    | succ k => simp [bumpAt, ih]

theorem zeroDeeper_getD_lt (c : List Nat) (L j : Nat) (h : j < L) :
    (zeroDeeper c L).getD j 0 = c.getD j 0 := by
  induction c generalizing L j with
  | nil => rfl
  | cons x t ih =>
    cases L with
    | zero => omega
    | succ l =>
      cases j with
      | zero => rfl
      | succ k =>
        simp only [zeroDeeper, List.getD_cons_succ]
        exact ih l k (by omega)

theorem zeroDeeper_getD_ge (c : List Nat) (L j : Nat) (h : L ≤ j) :
    (zeroDeeper c L).getD j 0 = 0 := by
  induction c generalizing L j with
  | nil => rfl
  | cons x t ih =>
    cases L with
    | zero =>
      cases j with
      | zero => rfl
      | succ k =>
        simp only [zeroDeeper, List.getD_cons_succ]
        exact ih 0 k (by omega)
    | succ l =>
      cases j with
      | zero => omega
      | succ k =>
        simp only [zeroDeeper, List.getD_cons_succ]
        exact ih l k (by omega)

theorem bumpAt_getD_ne (c : List Nat) (i j : Nat) (h : j ≠ i) :
    (bumpAt c i).getD j 0 = c.getD j 0 := by
  induction c generalizing i j with
  | nil => rfl
  | cons x t ih =>
    cases i with
    | zero =>
      cases j with
      | zero => omega
      | succ k => rfl
    | succ i' =>
      cases j with
      | zero => rfl
      | succ k =>
        simp only [bumpAt, List.getD_cons_succ]
        exact ih i' k (by omega)

theorem bumpAt_getD_self (c : List Nat) (i : Nat) (h : i < c.length) :
    (bumpAt c i).getD i 0 = c.getD i 0 + 1 := by
  induction c generalizing i with
  | nil => simp at h
  | cons x t ih =>
    cases i with
    | zero => rfl
    | succ k =>
      simp only [bumpAt, List.getD_cons_succ]
      exact ih k (by simpa using h)

/-- C1: one heading of level `L` (1–6) acting on the size-6 counter array
zeroes every counter at a level strictly greater than `L`, keeps every
counter at a level below `L`, and increments the counter at level `L`; the
resulting `numberPath` (the first `L` counters) has length `L`, and the
heading sequence H1,H2,H2,H1,H3 is numbered 1, 1.1, 1.2, 2, 2.0.1. -/
theorem toc_counter_update_spec :
    (∀ (c : List Nat) (L : Nat), c.length = 6 → 1 ≤ L → L ≤ 6 →
      ((tocStep c L).take L).length = L ∧
      (∀ j, L ≤ j → (tocStep c L).getD j 0 = 0) ∧
      (∀ j, j < L - 1 → (tocStep c L).getD j 0 = c.getD j 0) ∧
      (tocStep c L).getD (L - 1) 0 = c.getD (L - 1) 0 + 1) ∧
    tocNumberPaths [1, 2, 2, 1, 3] = [[1], [1, 1], [1, 2], [2], [2, 0, 1]] := by
  constructor
  · intro c L hc h1 h6
    have hlen : (tocStep c L).length = 6 := by
      simp [tocStep, bumpAt_length, zeroDeeper_length, hc]
    refine ⟨?_, ?_, ?_, ?_⟩
    · simp only [List.length_take, hlen]
      omega
    · intro j hj
      unfold tocStep
      rw [bumpAt_getD_ne (zeroDeeper c L) (L - 1) j (by omega)]
      exact zeroDeeper_getD_ge c L j (by omega)
    · intro j hj
      unfold tocStep
      rw [bumpAt_getD_ne (zeroDeeper c L) (L - 1) j (by omega)]
      exact zeroDeeper_getD_lt c L j (by omega)
    · unfold tocStep
      rw [bumpAt_getD_self (zeroDeeper c L) (L - 1) (by rw [zeroDeeper_length]; omega)]
      rw [zeroDeeper_getD_lt c L (L - 1) (by omega)]
  · decide

/-- Witness for C1: a level-2 heading after one H1 increments the level-2
counter. -/
theorem toc_counter_update_spec_witness :
    (tocStep [1, 0, 0, 0, 0, 0] 2).getD 1 0 = [1, 0, 0, 0, 0, 0].getD 1 0 + 1 :=
  (toc_counter_update_spec.1 [1, 0, 0, 0, 0, 0] 2 rfl (by decide) (by decide)).2.2.2

theorem findIdx_nodup_slug (chapters : List Chapter)
    (hnd : (chapters.map Chapter.slug).Nodup) (i : Nat) (h : i < chapters.length) :
    (chapters.findIdx fun x => x.slug == chapters[i].slug) = i := by
  induction chapters generalizing i with
  | nil => simp at h
  | cons a t ih =>
    rw [List.map_cons, List.nodup_cons] at hnd
    cases i with
    | zero => simp [List.findIdx_cons]
    | succ j =>
      have hj : j < t.length := by simpa using h
      have hmem : t[j].slug ∈ t.map Chapter.slug :=
        List.mem_map_of_mem _ (List.getElem_mem hj)
      have hne : (a.slug == t[j].slug) = false := by
        rw [beq_eq_false_iff_ne]
        intro heq
        exact hnd.1 (heq ▸ hmem)
      simp only [List.getElem_cons_succ, List.findIdx_cons, hne, cond_false]
      rw [ih hnd.2 j hj]

/-- C3: `getAuthorString` formats one author as the bare name, two authors
joined by `" & "`, and three or more authors as all but the last joined by
`", "` with the last appended after `" & "`; in particular `["Ada"]` gives
`"Ada"`, `["Ada","Lin"]` gives `"Ada & Lin"` and `["Ada","Lin","Grace"]`
gives `"Ada, Lin & Grace"`. -/
theorem author_display_string_spec :
    (∀ (m : Metadata) (a : AuthorRec), m.authors = some [a] →
      getAuthorString m = a.name) ∧
    (∀ (m : Metadata) (a b : AuthorRec), m.authors = some [a, b] →
      getAuthorString m = a.name ++ " & " ++ b.name) ∧
    (∀ (m : Metadata) (ns : List AuthorRec), m.authors = some ns →
      3 ≤ ns.length →
      getAuthorString m =
        String.intercalate ", " (ns.map AuthorRec.name).dropLast ++ " & " ++
          (ns.map AuthorRec.name).getLastD "") ∧
    getAuthorString { authors := some [mkAuthor "Ada"] } = "Ada" ∧
    getAuthorString { authors := some [mkAuthor "Ada", mkAuthor "Lin"] } = "Ada & Lin" ∧
    getAuthorString
        { authors := some [mkAuthor "Ada", mkAuthor "Lin", mkAuthor "Grace"] } =
      "Ada, Lin & Grace" := by
  refine ⟨?_, ?_, ?_, by decide, by decide, by decide⟩
  · intro m a h
    simp [getAuthorString, authorsPresent, h]
  · intro m a b h
    simp [getAuthorString, authorsPresent, h]
  · intro m ns h hlen
    have h0 : 0 < ns.length := by omega
    have h1 : (ns.map AuthorRec.name).length = ns.length := ns.length_map _
    simp only [getAuthorString, authorsPresent, h, Option.getD_some, h0, h1]
    rw [if_pos (by simp), if_neg (by omega), if_neg (by omega)]

/-- Witness for C3 at a concrete three-author record. -/
theorem author_display_string_spec_witness :
    getAuthorString
        { authors := some [mkAuthor "Ada", mkAuthor "Lin", mkAuthor "Grace"] } =
      String.intercalate ", "
          (([mkAuthor "Ada", mkAuthor "Lin", mkAuthor "Grace"].map
            AuthorRec.name)).dropLast ++ " & " ++
        ([mkAuthor "Ada", mkAuthor "Lin", mkAuthor "Grace"].map
            AuthorRec.name).getLastD "" :=
  author_display_string_spec.2.2.1 _ _ rfl (by decide)

/-- C6: when the structured `authors` array is present and non-empty,
`getAuthorArray` returns exactly its names (the legacy field is ignored);
otherwise it returns the legacy `author` field split on `&`/`,`, trimmed
and with empty pieces removed. -/
theorem author_array_normalization_spec :
    (∀ (m : Metadata) (ns : List AuthorRec), m.authors = some ns →
      0 < ns.length → getAuthorArray m = ns.map AuthorRec.name) ∧
    (∀ m : Metadata, authorsPresent m = false →
      getAuthorArray m = legacyAuthorSplit (m.author.getD "")) := by
  constructor
  · intro m ns h hlen
    simp [getAuthorArray, authorsPresent, h, hlen]
  · intro m h
    by_cases ht : strTruthy m.author
    · simp [getAuthorArray, h, ht]
    · have hb : strTruthy m.author = false := by simpa using ht
      cases hm : m.author with
      | none =>
        simp only [getAuthorArray, h, hb, hm, Bool.false_eq_true, if_false,
          Option.getD_none]
        decide
      | some s =>
        have hs : s.data = [] := by
          have := hb
          rw [hm] at this
          simpa [strTruthy] using this
        have hse : s = "" := by
          cases s
          simp_all
        simp only [getAuthorArray, h, hb, hm, hse, Bool.false_eq_true, if_false,
          Option.getD_some]
        decide

/-- Witness for C6 at a concrete structured record and a concrete legacy
record. -/
theorem author_array_normalization_spec_witness :
    getAuthorArray { authors := some [mkAuthor "Ada", mkAuthor "Lin"] } =
        [mkAuthor "Ada", mkAuthor "Lin"].map AuthorRec.name ∧
    getAuthorArray { author := some "Ada & Lin , Grace" } =
      legacyAuthorSplit ((some "Ada & Lin , Grace").getD "") :=
  ⟨author_array_normalization_spec.1 _ _ rfl (by decide),
   author_array_normalization_spec.2 { author := some "Ada & Lin , Grace" } (by decide)⟩

/-- C10: a record with neither a non-empty structured `authors` array nor a
truthy legacy `author` string yields `""` from `getAuthorString` and `[]`
from `getAuthorArray` — no error is raised. -/
theorem no_author_defaults_spec :
    ∀ m : Metadata, authorsPresent m = false → strTruthy m.author = false →
      getAuthorString m = "" ∧ getAuthorArray m = [] := by
  intro m h1 h2
  refine ⟨?_, by simp [getAuthorArray, h1, h2]⟩
  simp only [getAuthorString, h1, Bool.false_eq_true, if_neg]
  cases hm : m.author with
  | none => rfl
  | some s =>
    have hs : s.data = [] := by
      have := h2
      rw [hm] at this
      simpa [strTruthy] using this
    have : s = "" := by
      cases s
      simp_all
    simp [this]

/-- Witness for C10 at the empty metadata record. -/
theorem no_author_defaults_spec_witness :
    getAuthorString {} = "" ∧ getAuthorArray {} = [] :=
  no_author_defaults_spec {} (by decide) (by decide)

/-- C2 counterexample: two headings with the identical text `Overview`
receive the identical anchor `overview` — the anchors of a chapter are not
pairwise distinct, and no numeric-suffix disambiguation exists. -/
theorem anchor_uniqueness_cex :
    ¬ (chapterAnchors ["Overview", "Overview"]).Nodup := by decide

/-- C2 amended: the anchors of a chapter are the slugs of its heading texts
with no disambiguation, so they are pairwise distinct exactly when the
heading texts have pairwise distinct slugs (identical texts always
collide). -/
theorem anchor_uniqueness_amended :
    ∀ texts : List String,
      (chapterAnchors texts).Nodup ↔
        texts.Pairwise fun a b => slugify a ≠ slugify b := by
  intro texts
  simp [chapterAnchors, List.Nodup, List.pairwise_map]

/-- Witness for C2's amended claim on a two-heading chapter with distinct
slugs. -/
theorem anchor_uniqueness_amended_witness :
    (chapterAnchors ["Overview", "Setup"]).Nodup :=
  (anchor_uniqueness_amended ["Overview", "Setup"]).mpr (by decide)

theorem strCodeLe_total (a : List Char) :
    ∀ b, strCodeLe a b = true ∨ strCodeLe b a = true := by
  induction a with
  | nil => intro b; left; rfl
  | cons c cs ih =>
    intro b
    cases b with
    | nil => right; rfl
    | cons d ds =>
      by_cases h : c = d
      · subst h
        simpa [strCodeLe] using ih ds
      · rcases lt_trichotomy c d with hlt | heq | hgt
        · left; simp [strCodeLe, h, hlt]
        · exact absurd heq h
        · right; simp [strCodeLe, Ne.symm h, hgt]

theorem strCodeLe_trans (a : List Char) :
    ∀ b c, strCodeLe a b = true → strCodeLe b c = true → strCodeLe a c = true := by
  induction a with
  | nil => intro b c _ _; rfl
  | cons x xs ih =>
    intro b c h1 h2
    cases b with
    | nil => simp [strCodeLe] at h1
    | cons y ys =>
      cases c with
      | nil => simp [strCodeLe] at h2
      | cons z zs =>
        by_cases hxy : x = y
        · subst hxy
          by_cases hyz : x = z
          · subst hyz
            simp only [strCodeLe, if_pos rfl] at h1 h2 ⊢
            exact ih ys zs h1 h2
          · simp only [strCodeLe, if_neg hyz] at h2 ⊢
            exact h2
        · simp only [strCodeLe, if_neg hxy, decide_eq_true_eq] at h1
          by_cases hyz : y = z
          · subst hyz
            simp [strCodeLe, hxy, h1]
          · simp only [strCodeLe, if_neg hyz, decide_eq_true_eq] at h2
            have hxz : x < z := lt_trans h1 h2
            simp [strCodeLe, ne_of_lt hxz, hxz]

theorem strCodeLe_antisymm (a : List Char) :
    ∀ b, strCodeLe a b = true → strCodeLe b a = true → a = b := by
  induction a with
  | nil =>
    intro b _ h2
    cases b with
    | nil => rfl
    | cons d ds => simp [strCodeLe] at h2
  | cons x xs ih =>
    intro b h1 h2
    cases b with
    | nil => simp [strCodeLe] at h1
    | cons y ys =>
      by_cases hxy : x = y
      · subst hxy
        simp only [strCodeLe, if_pos rfl] at h1 h2
        rw [ih ys h1 h2]
      · simp only [strCodeLe, if_neg hxy, decide_eq_true_eq] at h1
        simp only [strCodeLe, if_neg (Ne.symm hxy), decide_eq_true_eq] at h2
        exact absurd h2 (lt_asymm h1)

/-- C4: the assembled chapter order is a pure function of the set of
filenames — any two permutations of the same directory listing produce the
same ordered chapter sequence. -/
theorem chapter_order_perm_invariant :
    ∀ files1 files2 : List String, files1.Perm files2 →
      orderedChapters files1 = orderedChapters files2 := by
  intro l1 l2 h
  haveI ht : IsTotal String fun a b => fileLe a b = true :=
    ⟨fun a b => strCodeLe_total a.data b.data⟩
  haveI htr : IsTrans String fun a b => fileLe a b = true :=
    ⟨fun a b c => strCodeLe_trans a.data b.data c.data⟩
  haveI has : IsAntisymm String fun a b => fileLe a b = true :=
    ⟨fun a b h1 h2 => String.ext (strCodeLe_antisymm a.data b.data h1 h2)⟩
  have hf : (l1.filter fun f => endsWithStr f ".md").Perm
      (l2.filter fun f => endsWithStr f ".md") := h.filter _
  have h1 := List.perm_insertionSort (fun a b : String => fileLe a b = true)
    (l1.filter fun f => endsWithStr f ".md")
  have h2 := List.perm_insertionSort (fun a b : String => fileLe a b = true)
    (l2.filter fun f => endsWithStr f ".md")
  exact List.eq_of_perm_of_sorted ((h1.trans hf).trans h2.symm)
    (List.sorted_insertionSort _ _) (List.sorted_insertionSort _ _)

/-- Witness for C4 on two permutations of a concrete listing. -/
theorem chapter_order_perm_invariant_witness :
    orderedChapters ["02-b.md", "notes.txt", "01-a.md"] =
      orderedChapters ["01-a.md", "02-b.md", "notes.txt"] :=
  chapter_order_perm_invariant _ _ (by decide)

/-- C5 counterexample: for the listing `['.mda.md', 'a.md.md']` (two
distinct Markdown filenames) both chapters receive the slug `a.md`, because
`replace('.md', '')` rewrites only the first occurrence; `findIndex` then
resolves both to index 0, so the LAST chapter's `nextChapter` is not the
no-link state but a reference to itself. -/
theorem prev_next_links_cex :
    (webChapters [".mda.md", "a.md.md"]).length = 2 ∧
    nextOf (webChapters [".mda.md", "a.md.md"])
        ((webChapters [".mda.md", "a.md.md"]).getD 1 { slug := "", filename := "" }) =
      some { slug := "a.md", filename := "a.html.md" } := by decide

/-- C5 amended: provided the chapter slugs are pairwise distinct (which
holds for every conventional listing whose filenames contain a single
`.md` occurrence), the first chapter's `prevChapter` and the last chapter's
`nextChapter` are the no-link state `none`, and every interior chapter
links to exactly its immediate neighbours in corpus order. -/
theorem prev_next_links_amended :
    ∀ chapters : List Chapter, (chapters.map Chapter.slug).Nodup →
      ∀ (i : Nat) (h : i < chapters.length),
        (i = 0 → prevOf chapters chapters[i] = none) ∧
        (∀ hpos : 0 < i, prevOf chapters chapters[i] = some chapters[i - 1]) ∧
        (i = chapters.length - 1 → nextOf chapters chapters[i] = none) ∧
        (∀ hlt : i < chapters.length - 1,
          nextOf chapters chapters[i] = some chapters[i + 1]) := by
  intro chapters hnd i h
  have hidx := findIdx_nodup_slug chapters hnd i h
  refine ⟨?_, ?_, ?_, ?_⟩
  · intro h0
    subst h0
    simp only [prevOf, hidx]
    simp
  · intro hpos
    simp only [prevOf, hidx, if_pos hpos]
    exact List.getElem?_eq_getElem (by omega)
  · intro hlast
    simp only [nextOf, hidx]
    rw [if_neg (by omega)]
  · intro hlt
    simp only [nextOf, hidx, if_pos hlt]
    exact List.getElem?_eq_getElem (by omega)

/-- Witness for C5's amended claim: the middle chapter of a three-chapter
corpus links back to the first chapter. -/
theorem prev_next_links_amended_witness :
    prevOf sampleChapters (sampleChapters.get ⟨1, by decide⟩) =
      some (sampleChapters.get ⟨0, by decide⟩) :=
  (prev_next_links_amended sampleChapters (by decide) 1 (by decide)).2.1 (by decide)

theorem hashSpace_append_left (a b : String) (h : hashSpace a = true) :
    hashSpace (a ++ b) = true := by
  have h' : ['#', ' '] <:+: a.data := of_decide_eq_true h
  have hmono : a.data <:+: a.data ++ b.data :=
    List.IsPrefix.isInfix (List.prefix_append a.data b.data)
  apply decide_eq_true
  rw [String.data_append]
  exact h'.trans hmono

theorem hashSpace_append_right (a b : String) (h : hashSpace b = true) :
    hashSpace (a ++ b) = true := by
  have h' : ['#', ' '] <:+: b.data := of_decide_eq_true h
  have hmono : b.data <:+: a.data ++ b.data :=
    List.IsSuffix.isInfix (List.suffix_append a.data b.data)
  apply decide_eq_true
  rw [String.data_append]
  exact h'.trans hmono

theorem pdfCombine_of_hashSpace (chapters : List String) :
    ∀ acc : String, hashSpace acc = true →
      chapters.foldl pdfAppend acc =
        chapters.foldl (fun acc d => acc ++ pageBreak ++ d ++ "\n\n") acc := by
  induction chapters with
  | nil => intro acc _; rfl
  | cons c cs ih =>
    intro acc h
    have hstep : pdfAppend acc c = acc ++ pageBreak ++ c ++ "\n\n" := by
      simp [pdfAppend, h]
    rw [List.foldl_cons, List.foldl_cons, hstep]
    exact ih _ (hashSpace_append_left _ _
      (hashSpace_append_left _ _ (hashSpace_append_left _ _ h)))

/-- C7 counterexample: two chapters that contain no `'# '` (for example
headingless prose) are concatenated with NO page break between them,
because `buildPDF` inserts the break only when the accumulated content
already contains `'# '`.  The claimed shape — exactly one break between the
pair — is false at this input. -/
theorem pdf_page_break_cex :
    pdfCombine tocBlock ["hello", "world"] =
        tocBlock ++ "hello" ++ "\n\n" ++ "world" ++ "\n\n" ∧
    pdfCombine tocBlock ["hello", "world"] ≠
      tocBlock ++ "hello" ++ "\n\n" ++ pageBreak ++ "world" ++ "\n\n" := by decide

/-- C7 amended: a page break precedes a chapter exactly when the content
accumulated before it contains `'# '`; hence when the front matter does not
contain `'# '` and the first chapter does, every later chapter is preceded
by exactly one page break and the first chapter by none. -/
theorem pdf_page_break_amended :
    ∀ (front c1 : String) (rest : List String),
      hashSpace front = false → hashSpace c1 = true →
      pdfCombine front (c1 :: rest) =
        rest.foldl (fun acc d => acc ++ pageBreak ++ d ++ "\n\n")
          (front ++ c1 ++ "\n\n") := by
  intro front c1 rest hf hc
  unfold pdfCombine
  rw [List.foldl_cons]
  have h1 : pdfAppend front c1 = front ++ c1 ++ "\n\n" := by
    simp [pdfAppend, hf]
  rw [h1]
  exact pdfCombine_of_hashSpace rest _
    (hashSpace_append_left _ _ (hashSpace_append_right front c1 hc))

/-- Witness for C7's amended claim on two one-heading chapters. -/
theorem pdf_page_break_amended_witness :
    pdfCombine tocBlock ["# A", "# B"] =
      ["# B"].foldl (fun acc d => acc ++ pageBreak ++ d ++ "\n\n")
        (tocBlock ++ "# A" ++ "\n\n") :=
  pdf_page_break_amended tocBlock "# A" ["# B"] (by decide) (by decide)

/-- C8: grouping the 25 titles `Chapter 1` .. `Chapter 25` yields exactly
five groups of five consecutive chapters; and in general the container is
rebuilt only when more than one bucket holds multiple items, every group in
the rebuilt output holds more than one item (single-item buckets are
rendered flat), and the output contains more than one group. -/
theorem chapter_grouping_spec :
    initChapterGrouping chapterTitles25 = some
      [RenderedEntry.group "Chapters 1-5"
        ["Chapter 1", "Chapter 2", "Chapter 3", "Chapter 4", "Chapter 5"],
       RenderedEntry.group "Chapters 6-10"
        ["Chapter 6", "Chapter 7", "Chapter 8", "Chapter 9", "Chapter 10"],
       RenderedEntry.group "Chapters 11-15"
        ["Chapter 11", "Chapter 12", "Chapter 13", "Chapter 14", "Chapter 15"],
       RenderedEntry.group "Chapters 16-20"
        ["Chapter 16", "Chapter 17", "Chapter 18", "Chapter 19", "Chapter 20"],
       RenderedEntry.group "Chapters 21-25"
        ["Chapter 21", "Chapter 22", "Chapter 23", "Chapter 24", "Chapter 25"]] ∧
    (∀ (titles : List String) (out : List RenderedEntry),
      groupChaptersByPrefix titles = some out →
      (∀ name items, RenderedEntry.group name items ∈ out → 1 < items.length) ∧
      1 < out.countP isGroupEntry) := by
  constructor
  · decide
  · intro titles out h
    simp only [ groupChaptersByPrefix] at h
    split at h
    case isFalse => exact Option.noConfusion h
    case isTrue hcond =>
      rw [Option.some.injEq] at h
      subst h
      constructor
      · intro name items hmem
        obtain ⟨g, hg, hfg⟩ := List.mem_map.mp hmem
        by_cases hlen : 1 < g.2.length
        · rw [if_pos hlen] at hfg
          injection hfg with h1 h2
          rw [← h2]
          exact hlen
        · rw [if_neg hlen] at hfg
          exact RenderedEntry.noConfusion hfg
      · rw [List.countP_map]
        have hpt : List.countP
            (isGroupEntry ∘ fun g : String × List String =>
              if 1 < g.2.length then RenderedEntry.group g.1 g.2
              else RenderedEntry.flat (g.2.headD ""))
            (groupByKey titles) =
            List.countP (fun g : String × List String => 1 < g.2.length)
              (groupByKey titles) := by
          apply List.countP_congr
          intro g _
          by_cases hlen : 1 < g.2.length
          · simp [hlen, isGroupEntry]
          · simp [hlen, isGroupEntry]
        rw [hpt, List.countP_eq_length_filter]
        exact hcond

/-- Witness for C8's general clause on a four-title listing that buckets
into two pairs. -/
theorem chapter_grouping_spec_witness :
    1 < (List.countP isGroupEntry
      [RenderedEntry.group "Chapters 1-5" ["Chapter 1", "Chapter 2"],
       RenderedEntry.group "Chapters 6-10" ["Chapter 7", "Chapter 8"]]) :=
  (chapter_grouping_spec.2 ["Chapter 1", "Chapter 2", "Chapter 7", "Chapter 8"]
    [RenderedEntry.group "Chapters 1-5" ["Chapter 1", "Chapter 2"],
     RenderedEntry.group "Chapters 6-10" ["Chapter 7", "Chapter 8"]] (by decide)).2

/-- C9: a metadata record whose required `title` field is missing (falsy)
produces the error `Missing required metadata field: title` and the
validator aborts (`process.exit(1)` fires exactly when the error list is
non-empty, before any build target runs); a record that is complete except
for the optional subtitle and cover image produces NO error — the build
proceeds — and only warnings, while the title pages degrade the missing
subtitle to the empty string. -/
theorem metadata_validation_spec :
    (∀ (m : Metadata) (c : Bool), strTruthy m.title = false →
      "Missing required metadata field: title" ∈ (validateMetadata m c).1 ∧
      validateAborts (validateMetadata m c).1 = true) ∧
    (∀ (m : Metadata) (c : Bool),
      strTruthy m.title = true → strTruthy m.description = true →
      strTruthy m.date = true → strTruthy m.author = true →
      m.authors = none → m.subtitle = none → m.kindleCoverImage = none →
      (validateMetadata m c).1 = [] ∧
      validateAborts (validateMetadata m c).1 = false ∧
      "Missing recommended metadata field: subtitle" ∈ (validateMetadata m c).2 ∧
      "No cover image specified in metadata" ∈ (validateMetadata m c).2) ∧
    (∀ m : Metadata, m.subtitle = none → subtitleDisplay m = "") := by
  refine ⟨?_, ?_, ?_⟩
  · intro m c h
    constructor
    · simp [validateMetadata, h]
    · simp [validateMetadata, validateAborts, h]
  · intro m c ht hd hdate ha hauth hsub hcover
    refine ⟨?_, ?_, ?_, ?_⟩
    · simp [validateMetadata, ht, hd, hdate, ha, hauth, hsub, hcover,
        show strTruthy (none : Option String) = false from rfl]
    · simp [validateMetadata, validateAborts, ht, hd, hdate, ha, hauth, hsub,
        hcover, show strTruthy (none : Option String) = false from rfl]
    · simp [validateMetadata, hsub,
        show strTruthy (none : Option String) = false from rfl]
    · simp [validateMetadata, hcover,
        show strTruthy (none : Option String) = false from rfl]
  · intro m h
    simp [subtitleDisplay, h]

/-- Witness for C9: a record missing only the optional subtitle and cover
validates with no errors, and a record missing the title aborts. -/
theorem metadata_validation_spec_witness :
    (validateMetadata
        { title := some "T", description := some "d", date := some "2024",
          author := some "Ada" } true).1 = [] ∧
    validateAborts (validateMetadata { author := some "Ada" } true).1 = true :=
  ⟨(metadata_validation_spec.2.1
      { title := some "T", description := some "d", date := some "2024",
        author := some "Ada" } true
      (by decide) (by decide) (by decide) (by decide) rfl rfl rfl).1,
   (metadata_validation_spec.1 { author := some "Ada" } true (by decide)).2⟩
